import Mathlib

/-!
Verification of the PnL-analysis pipeline (`pnl_analysis.py`).

The program is a linear pandas pipeline: load a semicolon-delimited trade
log, coerce two numeric columns (dropping rows that fail coercion), filter
to rows whose `action` is `"filled"`, attach a per-row `signed_pnl`
column, aggregate totals overall and per `orderProduct`, and build a
cumulative series sorted by `currentTime`.

Embedding choices:
* a DataFrame is a `List` of row structures, in file order;
* the two numeric columns are `ℚ` (pandas float64 arithmetic, modelled
  exactly; the spec's floating-point tolerance clauses hold with equality
  in this model);
* `currentTime` is `Int` (raw nanoseconds since the epoch);
* `pd.to_numeric(..., errors="coerce")` yields `Option ℚ` on the raw
  columns: `none` models the NaN produced for an unparseable cell;
* `DataFrame.sort_values("currentTime")` is called with the pandas
  default `kind="quicksort"` (numpy introsort), which pandas documents as
  not stable; its guaranteed contract is exactly "a permutation of the
  input whose `currentTime` column is ascending", so it is modelled as
  the relation `sort_values_spec` rather than as one fixed function;
* for the mutation claim about `calculate_filled_trades`, Python's
  reference semantics are modelled with an explicit heap of tables and
  `.copy()` as allocation of a fresh reference.
-/

namespace PnlAnalysis

/-- One parsed row of the trade log, with `tradePx`/`tradeAmt` already
numeric (the shape `calculate_filled_trades` receives from `load_data`). -/
structure Row where
  action : String
  orderSide : String
  orderProduct : String
  tradePx : ℚ
  tradeAmt : ℚ
  currentTime : Int
deriving DecidableEq

/-- A row of the Filled Trade table: the retained base row together with
the `signed_pnl` column added by `calculate_filled_trades`. -/
structure FilledRow where
  base : Row
  signed_pnl : ℚ
deriving DecidableEq

/-- The sign factor `np.where(filled["orderSide"] == "buy", -1, 1)`:
`-1` exactly when `orderSide` is the literal `"buy"`, else `+1`. -/
def signOf (orderSide : String) : ℚ :=
  if orderSide = "buy" then -1 else 1

/-- `calculate_filled_trades`: keep rows with `action == "filled"` and
attach `signed_pnl = tradePx * tradeAmt * sign`. -/
def calculate_filled_trades (df : List Row) : List FilledRow :=
  (df.filter (fun r => r.action == "filled")).map
    (fun r => { base := r, signed_pnl := r.tradePx * r.tradeAmt * signOf r.orderSide })

/-- `total_gross_pnl`: `filled["signed_pnl"].sum()`.  Pandas reduces the
column starting from `0.0` (an empty column sums to `0.0`); the fold
order is immaterial over `ℚ`. -/
def total_gross_pnl (filled : List FilledRow) : ℚ :=
  (filled.map (fun fr => fr.signed_pnl)).foldl (fun a b => a + b) 0

/-- The `signed_pnl` sum of the group of `filled` whose `orderProduct`
is `k` (one entry of `groupby("orderProduct")["signed_pnl"].sum()`). -/
def groupSum (filled : List FilledRow) (k : String) : ℚ :=
  ((filled.filter (fun fr => fr.base.orderProduct == k)).map (fun fr => fr.signed_pnl)).sum

/-- The group keys of `groupby("orderProduct")`: the distinct
`orderProduct` values, presented in ascending sorted order (pandas
`groupby` defaults to `sort=True`). -/
def groupKeys (filled : List FilledRow) : List String :=
  ((filled.map (fun fr => fr.base.orderProduct)).dedup).mergeSort
    (fun a b => decide (a ≤ b))

/-- `gross_pnl_by_asset`: `filled.groupby("orderProduct")["signed_pnl"].sum()`
as the list of (key, group sum) pairs in the order pandas presents them. -/
def gross_pnl_by_asset (filled : List FilledRow) : List (String × ℚ) :=
  (groupKeys filled).map (fun k => (k, groupSum filled k))

/-- Comparison used by `sort_values("currentTime")`. -/
def timeLE (a b : FilledRow) : Prop :=
  a.base.currentTime ≤ b.base.currentTime

instance : DecidableRel timeLE := fun a b =>
  inferInstanceAs (Decidable (a.base.currentTime ≤ b.base.currentTime))

/-- The `currentTime` column is ascending. -/
def sortedByTime (l : List FilledRow) : Prop :=
  l.Pairwise timeLE

instance (l : List FilledRow) : Decidable (sortedByTime l) :=
  inferInstanceAs (Decidable (l.Pairwise timeLE))

/-- Contract of `filled.copy().sort_values("currentTime")` with the
pandas default `kind="quicksort"`: the result is some permutation of the
input that is ascending in `currentTime`.  Quicksort is documented as
not stable, so nothing more is guaranteed about the order of rows with
equal timestamps. -/
def sort_values_spec (df out : List FilledRow) : Prop :=
  out.Perm df ∧ sortedByTime out

instance (df out : List FilledRow) : Decidable (sort_values_spec df out) :=
  inferInstanceAs (Decidable (out.Perm df ∧ sortedByTime out))

/-- `pd.to_datetime(t, unit="ns")` relabels the raw nanosecond count as a
`datetime64[ns]` value; the map on the underlying count is the identity
(value- and order-preserving). -/
def to_datetime (t : Int) : Int := t

/-- Running sums of a column starting from the accumulator `acc`
(`Series.cumsum`). -/
def cumsumAux (acc : ℚ) : List ℚ → List ℚ
  | [] => []
  | x :: xs => (acc + x) :: cumsumAux (acc + x) xs

/-- `Series.cumsum`: entry `i` is the sum of entries `0..i` of the input. -/
def cumsum (l : List ℚ) : List ℚ := cumsumAux 0 l

/-- The two columns `cumulative_gross_pnl` returns, built from an
already-sorted Filled Trade table `s`: `currentTime` converted to a
timestamp, zipped with the running sum of `signed_pnl`. -/
def seriesOf (s : List FilledRow) : List (Int × ℚ) :=
  (s.map (fun fr => to_datetime fr.base.currentTime)).zip
    (cumsum (s.map (fun fr => fr.signed_pnl)))

/-- Modelled from the spec: the stable chronological sort the spec
ascribes to the Cumulative Series Builder ("rows with equal timestamp
retain relative input order").  `List.mergeSort` is stable, so this is
the unique such result, to be compared with `sort_values_spec`. -/
def stable_sort_by_time (filled : List FilledRow) : List FilledRow :=
  filled.mergeSort (fun a b => decide (a.base.currentTime ≤ b.base.currentTime))

/-- A raw row as it stands right after
`df[col] = pd.to_numeric(df[col], errors="coerce")` for the two numeric
columns: `none` models the NaN left where coercion failed. -/
structure RawRow where
  action : String
  orderSide : String
  orderProduct : String
  tradePx : Option ℚ
  tradeAmt : Option ℚ
  currentTime : Int
deriving DecidableEq

/-- `df[["tradePx", "tradeAmt"]].isna().any(axis=1)` for one row. -/
def rowInvalid (r : RawRow) : Bool :=
  r.tradePx.isNone || r.tradeAmt.isNone

/-- `invalid_rows`: the rows where numeric conversion failed. -/
def invalid_rows (df : List RawRow) : List RawRow :=
  df.filter rowInvalid

/-- The count printed by the warning: `len(invalid_rows)`. -/
def warningCount (df : List RawRow) : Nat :=
  (invalid_rows df).length

/-- `df.dropna(subset=["tradePx", "tradeAmt"])`. -/
def dropna (df : List RawRow) : List RawRow :=
  df.filter (fun r => !(rowInvalid r))

/-- The table `load_data` returns once the file has been read and both
numeric columns exist: the `dropna` is only executed under
`if not invalid_rows.empty`. -/
def load_data_frame (df : List RawRow) : List RawRow :=
  if (invalid_rows df).isEmpty then df else dropna df

/-- The exceptions `load_data` can raise: `pd.read_csv` raises a
file-access error when the path is missing or unreadable (the spec's
`FileAccessError`), and `df[col]` raises a KeyError when the column is
absent (the spec's `FormatError`). -/
inductive LoadError where
  | fileAccess : LoadError
  | keyError : String → LoadError
deriving DecidableEq

/-- A successfully parsed csv: the header (column names) plus the rows.
Only the header is consulted by the Loader's column accesses; the rows
carry the post-coercion values. -/
structure ParsedCsv where
  columns : List String
  rows : List RawRow

/-- The required columns of the input format (spec §6). -/
def requiredColumns : List String :=
  ["action", "orderSide", "orderProduct", "tradePx", "tradeAmt", "currentTime"]

/-- `load_data` at the level of its error paths: `none` models a path
that does not exist or cannot be read (`pd.read_csv` raises); otherwise
the coercion loop touches `df["tradePx"]` then `df["tradeAmt"]`, raising
a KeyError on the first absent one; no other column is accessed. -/
def load_data (input : Option ParsedCsv) : Except LoadError (List RawRow) :=
  match input with
  | none => Except.error LoadError.fileAccess
  | some csv =>
    if "tradePx" ∈ csv.columns then
      if "tradeAmt" ∈ csv.columns then
        Except.ok (load_data_frame csv.rows)
      else
        Except.error (LoadError.keyError "tradeAmt")
    else
      Except.error (LoadError.keyError "tradePx")

/-- A pandas table under Python reference semantics: the base columns
plus the `signed_pnl` column, absent (`none`) until assigned. -/
abbrev PTable : Type := List (Row × Option ℚ)

/-- The Python heap: tables are heap objects, a DataFrame variable is an
index into it.  Allocation appends. -/
structure Heap where
  tables : List PTable
deriving DecidableEq

/-- Dereference a table variable. -/
def Heap.get (h : Heap) (r : Nat) : PTable :=
  h.tables.getD r []

/-- In-place column assignment mutates the referenced table. -/
def Heap.set (h : Heap) (r : Nat) (t : PTable) : Heap :=
  ⟨h.tables.set r t⟩

/-- `.copy()` allocates a fresh table object and returns its reference. -/
def Heap.alloc (h : Heap) (t : PTable) : Heap × Nat :=
  (⟨h.tables ++ [t]⟩, h.tables.length)

/-- `calculate_filled_trades` under reference semantics:
`filled = df[df["action"] == "filled"].copy()` allocates a fresh table
holding the filtered rows, then `filled["signed_pnl"] = ...` mutates
only that fresh table; the reference to the new table is returned. -/
def calculate_filled_trades_st (h : Heap) (df : Nat) : Heap × Nat :=
  let t := h.get df
  let copy := t.filter (fun rc => rc.1.action == "filled")
  let alloced := h.alloc copy
  let withPnl := copy.map
    (fun rc => (rc.1, some (rc.1.tradePx * rc.1.tradeAmt * signOf rc.1.orderSide)))
  ((alloced.1).set (alloced.2) withPnl, alloced.2)

/-- View of a pure Filled Trade table as a heap table. -/
def toPTable (filled : List FilledRow) : PTable :=
  filled.map (fun fr => (fr.base, some fr.signed_pnl))

/-! ### Helper lemmas -/

/-- A left fold of `+` from `acc` is `acc` plus the sum. -/
theorem foldl_add_eq (l : List ℚ) : ∀ acc : ℚ, l.foldl (fun a b => a + b) acc = acc + l.sum := by
  induction l with
  | nil => intro acc; simp
  | cons x xs ih =>
    intro acc
    simp only [List.foldl_cons, List.sum_cons, ih (acc + x)]
    ring

/-- `total_gross_pnl` is the sum of the `signed_pnl` column. -/
theorem total_eq_sum (filled : List FilledRow) :
    total_gross_pnl filled = (filled.map (fun fr => fr.signed_pnl)).sum := by
  simp [total_gross_pnl, foldl_add_eq]

/-- Splitting a sum over a list by a boolean predicate. -/
theorem sum_map_filter_split (p : FilledRow → Bool) (l : List FilledRow) :
    ((l.filter p).map (fun fr => fr.signed_pnl)).sum
      + ((l.filter (fun a => !(p a))).map (fun fr => fr.signed_pnl)).sum
      = (l.map (fun fr => fr.signed_pnl)).sum := by
  induction l with
  | nil => simp
  | cons x xs ih =>
    cases hx : p x <;> simp [List.filter_cons, hx, ← ih] <;> ring

/-- Summing the group sums over any duplicate-free list of keys that
covers every row's `orderProduct` recovers the whole column sum. -/
theorem sum_groupSum_of_cover :
    ∀ (keys : List String) (l : List FilledRow), keys.Nodup →
      (∀ fr ∈ l, fr.base.orderProduct ∈ keys) →
      (keys.map (groupSum l)).sum = (l.map (fun fr => fr.signed_pnl)).sum := by
  intro keys
  induction keys with
  | nil =>
    intro l _ hcov
    cases l with
    | nil => simp
    | cons fr rest => exact absurd (hcov fr (List.mem_cons_self fr rest)) (List.not_mem_nil _)
  | cons k ks ih =>
    intro l hnd hcov
    have hknotin : k ∉ ks := (List.nodup_cons.mp hnd).1
    have hndks : ks.Nodup := (List.nodup_cons.mp hnd).2
    set l2 := l.filter (fun fr => !(fr.base.orderProduct == k)) with hl2
    have htail : (ks.map (groupSum l)).sum = (ks.map (groupSum l2)).sum := by
      have hcongr : ∀ x ∈ ks, groupSum l x = groupSum l2 x := by
        intro x hx
        have hxk : x ≠ k := fun hxe => hknotin (hxe ▸ hx)
        unfold groupSum
        rw [hl2, List.filter_filter]
        congr 1
        congr 1
        apply List.filter_congr
        intro fr _
        cases hfr : fr.base.orderProduct == x with
        | true =>
          have : fr.base.orderProduct = x := by simpa using hfr
          simp [this, hxk]
        | false => simp [hfr]
      rw [List.map_congr_left hcongr]
    have hcov2 : ∀ fr ∈ l2, fr.base.orderProduct ∈ ks := by
      intro fr hfr
      have hmem := List.mem_of_mem_filter hfr
      have hne : ¬(fr.base.orderProduct == k) = true := by
        have := List.of_mem_filter hfr
        simpa using this
      have hnek : fr.base.orderProduct ≠ k := by simpa using hne
      rcases List.mem_cons.mp (hcov fr hmem) with h | h
      · exact absurd h hnek
      · exact h
    calc ((k :: ks).map (groupSum l)).sum
        = groupSum l k + (ks.map (groupSum l)).sum := by simp
      _ = groupSum l k + (l2.map (fun fr => fr.signed_pnl)).sum := by
          rw [htail, ih l2 hndks hcov2]
      _ = (l.map (fun fr => fr.signed_pnl)).sum := by
          rw [← sum_map_filter_split (fun fr => fr.base.orderProduct == k) l]
          rfl

/-- `cumsumAux` preserves length. -/
theorem cumsumAux_length (l : List ℚ) : ∀ acc, (cumsumAux acc l).length = l.length := by
  induction l with
  | nil => intro acc; rfl
  | cons x xs ih => intro acc; simp [cumsumAux, ih]

/-- The last running sum from `acc` is `acc` plus the whole sum. -/
theorem cumsumAux_getLast (l : List ℚ) :
    ∀ acc, l ≠ [] → (cumsumAux acc l).getLast? = some (acc + l.sum) := by
  induction l with
  | nil => intro acc h; exact absurd rfl h
  | cons x xs ih =>
    intro acc _
    cases xs with
    | nil => simp [cumsumAux]
    | cons y ys =>
      have hne : (y :: ys : List ℚ) ≠ [] := by simp
      calc (cumsumAux acc (x :: y :: ys)).getLast?
          = (cumsumAux (acc + x) (y :: ys)).getLast? := by
            simp [cumsumAux, List.getLast?_cons_cons]
        _ = some ((acc + x) + (y :: ys).sum) := ih (acc + x) hne
        _ = some (acc + (x :: y :: ys).sum) := by
            simp [List.sum_cons]
            ring

/-- Entry `i` of the running sums from `acc` is `acc` plus the sum of
the first `i + 1` inputs. -/
theorem cumsumAux_getElem (l : List ℚ) :
    ∀ acc i, i < l.length → (cumsumAux acc l)[i]? = some (acc + (l.take (i + 1)).sum) := by
  induction l with
  | nil => intro acc i h; simp at h
  | cons x xs ih =>
    intro acc i h
    cases i with
    | zero => simp [cumsumAux]
    | succ n =>
      have hn : n < xs.length := by simpa using h
      calc (cumsumAux acc (x :: xs))[n + 1]?
          = (cumsumAux (acc + x) xs)[n]? := by simp [cumsumAux]
        _ = some ((acc + x) + (xs.take (n + 1)).sum) := ih (acc + x) n hn
        _ = some (acc + ((x :: xs).take (n + 1 + 1)).sum) := by
            simp [List.take_succ_cons, List.sum_cons]
            ring

/-- The keys presented by `gross_pnl_by_asset` are the group keys. -/
theorem map_fst_gross_pnl_by_asset (filled : List FilledRow) :
    (gross_pnl_by_asset filled).map Prod.fst = groupKeys filled := by
  simp [gross_pnl_by_asset, List.map_map, Function.comp_def]

/-- The group keys are duplicate-free. -/
theorem groupKeys_nodup (filled : List FilledRow) : (groupKeys filled).Nodup := by
  unfold groupKeys
  exact ((List.mergeSort_perm _ _).symm).nodup (List.nodup_dedup _)

/-- The group keys cover every row's `orderProduct`. -/
theorem groupKeys_cover (filled : List FilledRow) :
    ∀ fr ∈ filled, fr.base.orderProduct ∈ groupKeys filled := by
  intro fr hfr
  unfold groupKeys
  rw [List.mem_mergeSort, List.mem_dedup]
  exact List.mem_map_of_mem _ hfr

/-- The group keys are presented in ascending order. -/
theorem groupKeys_sorted (filled : List FilledRow) :
    (groupKeys filled).Pairwise (fun a b : String => a ≤ b) := by
  unfold groupKeys
  have h := @List.sorted_mergeSort String (fun a b : String => decide (a ≤ b))
    (fun a b c hab hbc => by
      simp only [decide_eq_true_eq] at *
      exact le_trans hab hbc)
    (fun a b => by
      simpa [Bool.or_eq_true, decide_eq_true_eq] using le_total a b)
    ((filled.map (fun fr => fr.base.orderProduct)).dedup)
  exact h.imp (fun hab => by simpa using hab)

/-! ### Claims -/

/-- Claim C1: every row retained by the Filter/Transform step has
`signed_pnl = tradePx * tradeAmt * sign`, where the sign is `-1` when
`orderSide` is `"buy"` and `+1` otherwise, including any unrecognized
`orderSide` value. -/
theorem signed_pnl_formula (df : List Row) (fr : FilledRow)
    (h : fr ∈ calculate_filled_trades df) :
    fr.signed_pnl
      = fr.base.tradePx * fr.base.tradeAmt
        * (if fr.base.orderSide = "buy" then -1 else 1) := by
  unfold calculate_filled_trades at h
  rcases List.mem_map.mp h with ⟨r, _, rfl⟩
  simp [signOf]

/-- Claim C1 witness: a concrete retained row with the unrecognized
`orderSide` value `"hold"` gets sign `+1`. -/
theorem signed_pnl_formula_witness :
    (⟨⟨"filled", "hold", "AAA", 10, 2, 5⟩, 20⟩ : FilledRow)
        ∈ calculate_filled_trades [⟨"filled", "hold", "AAA", 10, 2, 5⟩]
      ∧ (⟨⟨"filled", "hold", "AAA", 10, 2, 5⟩, 20⟩ : FilledRow).signed_pnl
        = (10 : ℚ) * 2 * (if ("hold" : String) = "buy" then -1 else 1) :=
  ⟨by simp [calculate_filled_trades, signOf]; norm_num,
   signed_pnl_formula [⟨"filled", "hold", "AAA", 10, 2, 5⟩] _
     (by simp [calculate_filled_trades, signOf]; norm_num)⟩

/-- Claim C2: for every input table the Aggregator's total is the sum of
`signed_pnl` over all rows of the Filled Trade table, and the total of
the empty Filled Trade table is `0`. -/
theorem total_gross_pnl_correct (df : List Row) :
    total_gross_pnl (calculate_filled_trades df)
        = ((calculate_filled_trades df).map (fun fr => fr.signed_pnl)).sum
      ∧ total_gross_pnl [] = 0 :=
  ⟨total_eq_sum _, rfl⟩

/-- Claim C3: grouping by instrument is a partition — the per-instrument
totals of `gross_pnl_by_asset` sum to the grand total of
`total_gross_pnl`. -/
theorem by_asset_partition (filled : List FilledRow) :
    ((gross_pnl_by_asset filled).map Prod.snd).sum = total_gross_pnl filled := by
  have hmap : (gross_pnl_by_asset filled).map Prod.snd
      = (groupKeys filled).map (groupSum filled) := by
    simp [gross_pnl_by_asset, List.map_map, Function.comp]
  rw [hmap, total_eq_sum]
  exact sum_groupSum_of_cover (groupKeys filled) filled
    (groupKeys_nodup filled) (groupKeys_cover filled)

/-- Claim C10: the by-instrument Aggregator is a pure function of the
Filled Trade table, so identical inputs give identical mappings; its
presentation order is the ascending (duplicate-free) sort of the
`orderProduct` keys. -/
theorem by_asset_deterministic_sorted (filled : List FilledRow) :
    ((gross_pnl_by_asset filled).map Prod.fst).Pairwise (fun a b : String => a ≤ b)
      ∧ ((gross_pnl_by_asset filled).map Prod.fst).Nodup := by
  rw [map_fst_gross_pnl_by_asset]
  exact ⟨groupKeys_sorted filled, groupKeys_nodup filled⟩

/-- Splitting a list's length by a boolean predicate. -/
theorem length_filter_split (p : RawRow → Bool) (l : List RawRow) :
    (l.filter (fun a => !(p a))).length + (l.filter p).length = l.length := by
  induction l with
  | nil => simp
  | cons x xs ih => cases hx : p x <;> simp [List.filter_cons, hx, ← ih] <;> omega

/-- If no row is invalid, the no-op branch of `load_data` coincides with
`dropna`. -/
theorem load_data_frame_eq_dropna (df : List RawRow) :
    load_data_frame df = dropna df := by
  unfold load_data_frame
  by_cases hinv : (invalid_rows df).isEmpty
  · rw [if_pos hinv]
    have hnil : invalid_rows df = [] := List.isEmpty_iff.mp hinv
    have : ∀ r ∈ df, (!(rowInvalid r)) = true := by
      intro r hr
      cases hri : rowInvalid r with
      | false => simp
      | true =>
        have : r ∈ invalid_rows df := List.mem_filter.mpr ⟨hr, hri⟩
        rw [hnil] at this
        exact absurd this (List.not_mem_nil r)
    exact (List.filter_eq_self.mpr this).symm
  · rw [if_neg hinv]

/-- Claim C6: rows whose `action` is not the literal `"filled"` never
appear in the Filled Trade table, hence not in the Aggregator inputs
(the Filled Trade table itself) nor in any admissible Cumulative Series
row order (a permutation of it). -/
theorem non_filled_never_appear (df : List Row) (r : Row) (hr : r.action ≠ "filled") :
    (∀ fr ∈ calculate_filled_trades df, fr.base ≠ r)
      ∧ ∀ s, sort_values_spec (calculate_filled_trades df) s → ∀ fr ∈ s, fr.base ≠ r := by
  have hbase : ∀ fr ∈ calculate_filled_trades df, fr.base ≠ r := by
    intro fr hfr heq
    unfold calculate_filled_trades at hfr
    rcases List.mem_map.mp hfr with ⟨r0, hr0, rfl⟩
    have : r0.action = "filled" := by simpa using List.of_mem_filter hr0
    exact hr (heq ▸ this)
  refine ⟨hbase, fun s hs fr hfr => ?_⟩
  exact hbase fr (hs.1.mem_iff.mp hfr)

/-- Claim C6 witness: a concrete cancelled row is absent from the output
of a concrete run. -/
theorem non_filled_never_appear_witness :
    (⟨"cancelled", "buy", "AAA", 1, 1, 7⟩ : Row).action ≠ "filled"
      ∧ ((∀ fr ∈ calculate_filled_trades
            [⟨"filled", "sell", "AAA", 12, 2, 1⟩, ⟨"cancelled", "buy", "AAA", 1, 1, 7⟩],
            fr.base ≠ ⟨"cancelled", "buy", "AAA", 1, 1, 7⟩)
          ∧ ∀ s, sort_values_spec
              (calculate_filled_trades
                [⟨"filled", "sell", "AAA", 12, 2, 1⟩, ⟨"cancelled", "buy", "AAA", 1, 1, 7⟩]) s →
              ∀ fr ∈ s, fr.base ≠ ⟨"cancelled", "buy", "AAA", 1, 1, 7⟩) :=
  ⟨by decide,
   non_filled_never_appear
     [⟨"filled", "sell", "AAA", 12, 2, 1⟩, ⟨"cancelled", "buy", "AAA", 1, 1, 7⟩]
     ⟨"cancelled", "buy", "AAA", 1, 1, 7⟩ (by decide)⟩

/-- Claim C7: the Loader removes exactly the rows whose `tradePx` or
`tradeAmt` failed numeric coercion, keeps the remainder (processing is
non-fatal), retained rows all have both numbers, and the warning's drop
count accounts exactly for the removed rows. -/
theorem invalid_rows_dropped (df : List RawRow) :
    load_data_frame df = df.filter (fun r => !(rowInvalid r))
      ∧ (∀ r ∈ load_data_frame df, r.tradePx.isSome ∧ r.tradeAmt.isSome)
      ∧ (load_data_frame df).length + warningCount df = df.length
      ∧ warningCount df = (df.filter rowInvalid).length := by
  have hdrop : load_data_frame df = df.filter (fun r => !(rowInvalid r)) :=
    load_data_frame_eq_dropna df
  refine ⟨hdrop, ?_, ?_, rfl⟩
  · intro r hr
    rw [hdrop] at hr
    have : (!(rowInvalid r)) = true := (List.mem_filter.mp hr).2
    have hri : rowInvalid r = false := by simpa using this
    unfold rowInvalid at hri
    rcases Bool.or_eq_false_iff.mp hri with ⟨hpx, hamt⟩
    constructor
    · cases hx : r.tradePx with
      | none => rw [hx] at hpx; simp at hpx
      | some q => simp [hx]
    · cases hx : r.tradeAmt with
      | none => rw [hx] at hamt; simp at hamt
      | some q => simp [hx]
  · rw [hdrop]
    exact length_filter_split rowInvalid df

/-- Claim C7 witness: on a concrete raw table with one coercion failure,
one row is dropped and counted. -/
theorem invalid_rows_dropped_witness :
    warningCount
        [⟨"filled", "sell", "AAA", some 12, some 2, 1⟩,
         ⟨"filled", "buy", "AAA", none, some 1, 2⟩] = 1
      ∧ (load_data_frame
          [⟨"filled", "sell", "AAA", some 12, some 2, 1⟩,
           ⟨"filled", "buy", "AAA", none, some 1, 2⟩]
          = List.filter (fun r => !(rowInvalid r))
            [⟨"filled", "sell", "AAA", some 12, some 2, 1⟩,
             ⟨"filled", "buy", "AAA", none, some 1, 2⟩]
        ∧ (∀ r ∈ load_data_frame
            [⟨"filled", "sell", "AAA", some 12, some 2, 1⟩,
             ⟨"filled", "buy", "AAA", none, some 1, 2⟩],
            r.tradePx.isSome ∧ r.tradeAmt.isSome)
        ∧ (load_data_frame
            [⟨"filled", "sell", "AAA", some 12, some 2, 1⟩,
             ⟨"filled", "buy", "AAA", none, some 1, 2⟩]).length
            + warningCount
              [⟨"filled", "sell", "AAA", some 12, some 2, 1⟩,
               ⟨"filled", "buy", "AAA", none, some 1, 2⟩]
            = 2
        ∧ warningCount
            [⟨"filled", "sell", "AAA", some 12, some 2, 1⟩,
             ⟨"filled", "buy", "AAA", none, some 1, 2⟩]
            = (List.filter rowInvalid
              [⟨"filled", "sell", "AAA", some 12, some 2, 1⟩,
               ⟨"filled", "buy", "AAA", none, some 1, 2⟩]).length) :=
  ⟨by decide,
   invalid_rows_dropped
     [⟨"filled", "sell", "AAA", some 12, some 2, 1⟩,
      ⟨"filled", "buy", "AAA", none, some 1, 2⟩]⟩

/-- Claim C4: for every non-empty Filled Trade table, any admissible
result of the Cumulative Series Builder has the table's length, its
first entry's cumulative value is that entry's own `signed_pnl`, and its
last entry's cumulative value is the Aggregator's grand total (exactly,
in this exact-arithmetic model). -/
theorem cumulative_series_endpoints (df s : List FilledRow)
    (hs : sort_values_spec df s) (hne : df ≠ []) :
    (seriesOf s).length = df.length
      ∧ (∃ fr rest, s = fr :: rest
          ∧ (seriesOf s).head? = some (to_datetime fr.base.currentTime, fr.signed_pnl))
      ∧ ((seriesOf s).map Prod.snd).getLast? = some (total_gross_pnl df) := by
  obtain ⟨hperm, _⟩ := hs
  have hlen : s.length = df.length := hperm.length_eq
  have hsne : s ≠ [] := by
    intro h
    rw [h] at hlen
    exact hne (List.length_eq_zero.mp hlen.symm)
  refine ⟨?_, ?_, ?_⟩
  · simp [seriesOf, cumsum, cumsumAux_length, hlen]
  · cases s with
    | nil => exact absurd rfl hsne
    | cons fr rest =>
      refine ⟨fr, rest, rfl, ?_⟩
      simp [seriesOf, cumsum, cumsumAux]
  · have hsnd : (seriesOf s).map Prod.snd = cumsum (s.map (fun fr => fr.signed_pnl)) :=
      List.map_snd_zip _ _ (by simp [cumsum, cumsumAux_length])
    have hmne : s.map (fun fr => fr.signed_pnl) ≠ [] := by
      intro h
      exact hsne (List.map_eq_nil_iff.mp h)
    rw [hsnd, cumsum, cumsumAux_getLast _ 0 hmne, zero_add, total_eq_sum]
    exact congrArg some ((hperm.map (fun fr => fr.signed_pnl)).sum_eq)

/-- Claim C4 witness: a concrete two-row table, sorted into ascending
time order, with the theorem's hypotheses discharged by evaluation. -/
theorem cumulative_series_endpoints_witness :
    sort_values_spec
        [⟨⟨"filled", "sell", "AAA", 12, 2, 2⟩, 24⟩, ⟨⟨"filled", "buy", "AAA", 10, 2, 1⟩, -20⟩]
        [⟨⟨"filled", "buy", "AAA", 10, 2, 1⟩, -20⟩, ⟨⟨"filled", "sell", "AAA", 12, 2, 2⟩, 24⟩]
      ∧ ([⟨⟨"filled", "sell", "AAA", 12, 2, 2⟩, 24⟩,
          ⟨⟨"filled", "buy", "AAA", 10, 2, 1⟩, -20⟩] : List FilledRow) ≠ []
      ∧ ((seriesOf
            [⟨⟨"filled", "buy", "AAA", 10, 2, 1⟩, -20⟩,
             ⟨⟨"filled", "sell", "AAA", 12, 2, 2⟩, 24⟩]).length
          = ([⟨⟨"filled", "sell", "AAA", 12, 2, 2⟩, 24⟩,
              ⟨⟨"filled", "buy", "AAA", 10, 2, 1⟩, -20⟩] : List FilledRow).length
        ∧ (∃ fr rest,
            ([⟨⟨"filled", "buy", "AAA", 10, 2, 1⟩, -20⟩,
              ⟨⟨"filled", "sell", "AAA", 12, 2, 2⟩, 24⟩] : List FilledRow) = fr :: rest
            ∧ (seriesOf
                [⟨⟨"filled", "buy", "AAA", 10, 2, 1⟩, -20⟩,
                 ⟨⟨"filled", "sell", "AAA", 12, 2, 2⟩, 24⟩]).head?
              = some (to_datetime fr.base.currentTime, fr.signed_pnl))
        ∧ ((seriesOf
              [⟨⟨"filled", "buy", "AAA", 10, 2, 1⟩, -20⟩,
               ⟨⟨"filled", "sell", "AAA", 12, 2, 2⟩, 24⟩]).map Prod.snd).getLast?
            = some (total_gross_pnl
                [⟨⟨"filled", "sell", "AAA", 12, 2, 2⟩, 24⟩,
                 ⟨⟨"filled", "buy", "AAA", 10, 2, 1⟩, -20⟩])) :=
  ⟨by decide, by decide,
   cumulative_series_endpoints
     [⟨⟨"filled", "sell", "AAA", 12, 2, 2⟩, 24⟩, ⟨⟨"filled", "buy", "AAA", 10, 2, 1⟩, -20⟩]
     [⟨⟨"filled", "buy", "AAA", 10, 2, 1⟩, -20⟩, ⟨⟨"filled", "sell", "AAA", 12, 2, 2⟩, 24⟩]
     (by decide) (by decide)⟩

/-- Claim C5 counterexample: the sort contract of
`sort_values("currentTime")` (pandas default `kind="quicksort"`, not
stable) admits, on a concrete two-row table with equal timestamps, an
output different from the stable sort the claim prescribes, so
equal-timestamp rows need not retain their input order. -/
theorem sort_values_not_stable :
    sort_values_spec
        [⟨⟨"filled", "buy", "AAA", 10, 2, 1⟩, -20⟩, ⟨⟨"filled", "sell", "AAA", 12, 2, 1⟩, 24⟩]
        [⟨⟨"filled", "sell", "AAA", 12, 2, 1⟩, 24⟩, ⟨⟨"filled", "buy", "AAA", 10, 2, 1⟩, -20⟩]
      ∧ ([⟨⟨"filled", "sell", "AAA", 12, 2, 1⟩, 24⟩,
          ⟨⟨"filled", "buy", "AAA", 10, 2, 1⟩, -20⟩] : List FilledRow)
          ≠ stable_sort_by_time
            [⟨⟨"filled", "buy", "AAA", 10, 2, 1⟩, -20⟩, ⟨⟨"filled", "sell", "AAA", 12, 2, 1⟩, 24⟩]
      ∧ (⟨⟨"filled", "buy", "AAA", 10, 2, 1⟩, -20⟩ : FilledRow).base.currentTime
        = (⟨⟨"filled", "sell", "AAA", 12, 2, 1⟩, 24⟩ : FilledRow).base.currentTime := by
  refine ⟨by decide, ?_, by decide⟩
  have hst : stable_sort_by_time
      [⟨⟨"filled", "buy", "AAA", 10, 2, 1⟩, -20⟩, ⟨⟨"filled", "sell", "AAA", 12, 2, 1⟩, 24⟩]
      = [⟨⟨"filled", "buy", "AAA", 10, 2, 1⟩, -20⟩, ⟨⟨"filled", "sell", "AAA", 12, 2, 1⟩, 24⟩] := by
    unfold stable_sort_by_time
    exact List.mergeSort_of_sorted (by decide)
  rw [hst]
  decide

/-- Claim C5 as amended: the Cumulative Series Builder produces a
permutation of the Filled Trade table that is ascending in
`currentTime` — with no stability guarantee for equal timestamps, since
the pandas default sort kind is quicksort — and the cumulative column is
the running sum of `signed_pnl` in that sorted order. -/
theorem cumulative_sorted_running_sum (df s : List FilledRow) (hs : sort_values_spec df s) :
    s.Perm df ∧ sortedByTime s
      ∧ (seriesOf s).map Prod.snd = cumsum (s.map (fun fr => fr.signed_pnl))
      ∧ ∀ i, i < s.length →
          (cumsum (s.map (fun fr => fr.signed_pnl)))[i]?
            = some (((s.take (i + 1)).map (fun fr => fr.signed_pnl)).sum) := by
  refine ⟨hs.1, hs.2, List.map_snd_zip _ _ (by simp [cumsum, cumsumAux_length]), ?_⟩
  intro i hi
  have hi2 : i < (s.map (fun fr => fr.signed_pnl)).length := by simpa using hi
  rw [cumsum, cumsumAux_getElem _ 0 i hi2, zero_add, ← List.map_take]

/-- Claim C5 amended witness: the running-sum characterization on a
concrete sorted two-row table. -/
theorem cumulative_sorted_running_sum_witness :
    sort_values_spec
        [⟨⟨"filled", "sell", "BBB", 5, 1, 9⟩, 5⟩, ⟨⟨"filled", "buy", "BBB", 3, 1, 4⟩, -3⟩]
        [⟨⟨"filled", "buy", "BBB", 3, 1, 4⟩, -3⟩, ⟨⟨"filled", "sell", "BBB", 5, 1, 9⟩, 5⟩]
      ∧ (([⟨⟨"filled", "buy", "BBB", 3, 1, 4⟩, -3⟩,
           ⟨⟨"filled", "sell", "BBB", 5, 1, 9⟩, 5⟩] : List FilledRow).Perm
            [⟨⟨"filled", "sell", "BBB", 5, 1, 9⟩, 5⟩, ⟨⟨"filled", "buy", "BBB", 3, 1, 4⟩, -3⟩]
        ∧ sortedByTime
            [⟨⟨"filled", "buy", "BBB", 3, 1, 4⟩, -3⟩, ⟨⟨"filled", "sell", "BBB", 5, 1, 9⟩, 5⟩]
        ∧ (seriesOf
            [⟨⟨"filled", "buy", "BBB", 3, 1, 4⟩, -3⟩,
             ⟨⟨"filled", "sell", "BBB", 5, 1, 9⟩, 5⟩]).map Prod.snd
          = cumsum
              (([⟨⟨"filled", "buy", "BBB", 3, 1, 4⟩, -3⟩,
                 ⟨⟨"filled", "sell", "BBB", 5, 1, 9⟩, 5⟩] : List FilledRow).map
                (fun fr => fr.signed_pnl))
        ∧ ∀ i, i < ([⟨⟨"filled", "buy", "BBB", 3, 1, 4⟩, -3⟩,
             ⟨⟨"filled", "sell", "BBB", 5, 1, 9⟩, 5⟩] : List FilledRow).length →
            (cumsum
              (([⟨⟨"filled", "buy", "BBB", 3, 1, 4⟩, -3⟩,
                 ⟨⟨"filled", "sell", "BBB", 5, 1, 9⟩, 5⟩] : List FilledRow).map
                (fun fr => fr.signed_pnl)))[i]?
              = some (((([⟨⟨"filled", "buy", "BBB", 3, 1, 4⟩, -3⟩,
                  ⟨⟨"filled", "sell", "BBB", 5, 1, 9⟩, 5⟩] : List FilledRow).take (i + 1)).map
                  (fun fr => fr.signed_pnl)).sum)) :=
  ⟨by decide,
   cumulative_sorted_running_sum
     [⟨⟨"filled", "sell", "BBB", 5, 1, 9⟩, 5⟩, ⟨⟨"filled", "buy", "BBB", 3, 1, 4⟩, -3⟩]
     [⟨⟨"filled", "buy", "BBB", 3, 1, 4⟩, -3⟩, ⟨⟨"filled", "sell", "BBB", 5, 1, 9⟩, 5⟩]
     (by decide)⟩

/-- Claim C8 counterexample: `action` is a required column, yet on a
parsed input whose header lacks it (holding only `tradePx` and
`tradeAmt`), the Loader succeeds instead of failing with a
`FormatError` — it only ever accesses the two numeric columns. -/
theorem loader_ok_without_action_column :
    "action" ∈ requiredColumns
      ∧ "action" ∉ (ParsedCsv.mk ["tradePx", "tradeAmt"] []).columns
      ∧ load_data (some (ParsedCsv.mk ["tradePx", "tradeAmt"] [])) = Except.ok [] :=
  ⟨by decide, by decide, rfl⟩

/-- Claim C8 as amended: the Loader fails with a `FileAccessError` when
the path is missing or unreadable, and with a `FormatError` (KeyError)
when `tradePx` or `tradeAmt` is absent after parsing; absence of the
other required columns is not detected by the Loader. -/
theorem loader_error_paths (input : Option ParsedCsv) :
    (input = none → load_data input = Except.error LoadError.fileAccess)
      ∧ ∀ csv, input = some csv →
          ("tradePx" ∉ csv.columns →
              load_data input = Except.error (LoadError.keyError "tradePx"))
            ∧ ("tradePx" ∈ csv.columns → "tradeAmt" ∉ csv.columns →
              load_data input = Except.error (LoadError.keyError "tradeAmt"))
            ∧ ("tradePx" ∈ csv.columns → "tradeAmt" ∈ csv.columns →
              load_data input = Except.ok (load_data_frame csv.rows)) := by
  constructor
  · intro h
    rw [h]
    rfl
  · intro csv h
    subst h
    refine ⟨fun hpx => ?_, fun hpx hamt => ?_, fun hpx hamt => ?_⟩
    · simp [load_data, hpx]
    · simp [load_data, hpx, hamt]
    · simp [load_data, hpx, hamt]

/-- Claim C8 amended witness: the file-access failure and a
missing-`tradePx` failure at concrete inputs. -/
theorem loader_error_paths_witness :
    load_data none = Except.error LoadError.fileAccess
      ∧ load_data (some (ParsedCsv.mk ["action"] []))
        = Except.error (LoadError.keyError "tradePx") :=
  ⟨(loader_error_paths none).1 rfl,
   ((loader_error_paths (some (ParsedCsv.mk ["action"] []))).2
     (ParsedCsv.mk ["action"] []) rfl).1 (by decide)⟩

/-- Claim C9: under reference semantics, `calculate_filled_trades`
leaves the table it is passed unchanged on the heap, returns a
reference distinct from it (a new object), and that new object holds
exactly the derived Filled Trade table. -/
theorem calculate_filled_trades_no_mutation (h : Heap) (df : Nat)
    (hdf : df < h.tables.length) :
    ((calculate_filled_trades_st h df).1).get df = h.get df
      ∧ (calculate_filled_trades_st h df).2 ≠ df
      ∧ ((calculate_filled_trades_st h df).1).get ((calculate_filled_trades_st h df).2)
        = toPTable (calculate_filled_trades ((h.get df).map Prod.fst)) := by
  have hne : h.tables.length ≠ df := Nat.ne_of_gt hdf
  refine ⟨?_, ?_, ?_⟩
  · simp only [calculate_filled_trades_st, Heap.alloc, Heap.set, Heap.get]
    rw [List.getD_eq_getElem?_getD, List.getD_eq_getElem?_getD,
      List.getElem?_set_ne hne, List.getElem?_append_left hdf]
  · simp only [calculate_filled_trades_st, Heap.alloc]
    exact hne
  · simp only [calculate_filled_trades_st, Heap.alloc, Heap.set, Heap.get]
    rw [List.getD_eq_getElem?_getD,
      List.getElem?_set_self (by simp [Nat.lt_succ_self]), Option.getD_some]
    simp [toPTable, calculate_filled_trades, List.filter_map, List.map_map,
      Function.comp_def]

/-- Claim C9 witness: on a concrete one-table heap, the input table is
untouched, and the fresh table holds the derived rows. -/
theorem calculate_filled_trades_no_mutation_witness :
    0 < (Heap.mk [[(⟨"filled", "buy", "AAA", 1, 2, 3⟩, none)]]).tables.length
      ∧ (((calculate_filled_trades_st
            (Heap.mk [[(⟨"filled", "buy", "AAA", 1, 2, 3⟩, none)]]) 0).1).get 0
          = (Heap.mk [[(⟨"filled", "buy", "AAA", 1, 2, 3⟩, none)]]).get 0
        ∧ (calculate_filled_trades_st
            (Heap.mk [[(⟨"filled", "buy", "AAA", 1, 2, 3⟩, none)]]) 0).2 ≠ 0
        ∧ ((calculate_filled_trades_st
              (Heap.mk [[(⟨"filled", "buy", "AAA", 1, 2, 3⟩, none)]]) 0).1).get
            ((calculate_filled_trades_st
              (Heap.mk [[(⟨"filled", "buy", "AAA", 1, 2, 3⟩, none)]]) 0).2)
          = toPTable (calculate_filled_trades
              (((Heap.mk [[(⟨"filled", "buy", "AAA", 1, 2, 3⟩, none)]]).get 0).map Prod.fst))) :=
  ⟨by decide,
   calculate_filled_trades_no_mutation
     (Heap.mk [[(⟨"filled", "buy", "AAA", 1, 2, 3⟩, none)]]) 0 (by decide)⟩

end PnlAnalysis
